import Mathlib

/-!
Shallow embedding of the pooler / nectarFinance sources:
  * `system_epoch_detector.py` — the `chunks` generator and one polling
    iteration of `EpochDetectorProcess.run` (the part that compares the
    checkpoint against the network epoch and broadcasts chunked epochs);
  * `pooler/processor_distributor.py` — routing in `_distribute_callbacks`,
    the snapshotting fan-out `_distribute_callbacks_snapshotting`, and the
    multi-project branch of `_distribute_callbacks_aggregate` over a model
    of the Redis sorted set;
  * `uniswap_functions.py` — the `SCRIPT_INCR_EXPIRE` Lua script over a
    model of a single Redis key, and the per-limit loop of
    `check_rpc_rate_limit`.
Machine integers are `Int` (Python ints are unbounded); Redis structures are
modelled explicitly as lists / options.
-/

namespace Pooler

/-! ## `chunks` from `system_epoch_detector.py`

The source generator is

```
def chunks(start_idx, stop_idx, n):
    run_idx = 0
    for i in range(start_idx, stop_idx + 1, n):
        begin_idx = i  # if run_idx == 0 else i+1
        if begin_idx == stop_idx + 1:
            return
        end_idx = i + n - 1 if i + n - 1 <= stop_idx else stop_idx
        run_idx += 1
        yield begin_idx, end_idx, run_idx
```

The loop over `range(start_idx, stop_idx + 1, n)` with positive step `n`
visits `i = start_idx, start_idx + n, …` while `i < stop_idx + 1`; it is
embedded as structural recursion on a fuel bounded by the width of the
range (each step advances by `n ≥ 1`, so `(stop_idx + 1 - start_idx).toNat`
steps always suffice).  For a positive step every visited `i` satisfies
`i < stop_idx + 1`, so the source's early `return` on
`begin_idx == stop_idx + 1` is unreachable and is absorbed by the range
guard.  `run_idx` is the 1-based position of the yielded tuple in the
stream and is dropped (it is the list index plus one).  Python's `range`
raises on step `0` and yields nothing here for negative step; the model
returns `[]` unless `1 ≤ n`. -/
def chunksGo : Nat → Int → Int → Int → List (Int × Int)
  | 0, _, _, _ => []
  | fuel + 1, i, stop_idx, n =>
      if i < stop_idx + 1 then
        (i, if i + n - 1 ≤ stop_idx then i + n - 1 else stop_idx) ::
          chunksGo fuel (i + n) stop_idx n
      else []

/-- The `chunks` generator, as the list of `(begin_idx, end_idx)` pairs it
yields. -/
def chunks (start_idx stop_idx n : Int) : List (Int × Int) :=
  if 1 ≤ n then chunksGo (stop_idx + 1 - start_idx).toNat start_idx stop_idx n
  else []

/-- `covers l lo hi` : the intervals of `l` partition `[lo, hi]` into
consecutive, nonempty, adjacent closed intervals, in order. -/
def covers : List (Int × Int) → Int → Int → Prop
  | [], lo, hi => lo = hi + 1
  | (b, e) :: rest, lo, hi => b = lo ∧ lo ≤ e ∧ e ≤ hi ∧ covers rest (e + 1) hi

/-! ## One polling iteration of `EpochDetectorProcess.run`

State compared each cycle: the checkpoint `self._last_processed_epoch`
(a dict with `begin`/`end`) and the `current_epoch` fetched from the
consensus tracker.  The branch structure of lines 165–194 of
`system_epoch_detector.py`, for the case where a checkpoint exists, is:

  1. equal `end`s → sleep and retry;
  2. `current['end'] - last['end'] > FALL_BEHIND_RESET_NUM_BLOCKS` →
     log error and `raise GenericExitOnSignal` (the decorator then exits);
  3. `last['end'] > current['end']` → log warning and
     `raise GenericExitOnSignal`;
  4. otherwise broadcast, in order, every chunk of
     `chunks(last['end'], current['end'], current['end']-current['begin']+1)`,
     updating the checkpoint to each broadcast epoch in turn. -/
structure Epoch where
  begin_ : Int
  end_ : Int
deriving DecidableEq, Repr

inductive DetectorOutcome where
  /-- Equal ends: sleep for the polling interval and retry. -/
  | sleepRetry
  /-- Gap above the fall-behind threshold: `raise GenericExitOnSignal`. -/
  | terminateFallBehind
  /-- Network end regressed below the checkpoint end: `raise GenericExitOnSignal`. -/
  | terminateRegression
  /-- Broadcast these epochs in order, each one becoming the checkpoint. -/
  | broadcast (epochs : List Epoch)
deriving DecidableEq, Repr

/-- One iteration of the detector's polling loop when a checkpoint exists
(`last`), faithful to the branch order of the source. -/
def detectorStep (last current : Epoch) (fallBehindThreshold : Int) : DetectorOutcome :=
  if last.end_ = current.end_ then
    .sleepRetry
  else if current.end_ - last.end_ > fallBehindThreshold then
    .terminateFallBehind
  else if last.end_ > current.end_ then
    .terminateRegression
  else
    .broadcast ((chunks last.end_ current.end_ (current.end_ - current.begin_ + 1)).map
      fun c => ⟨c.1, c.2⟩)

/-- Epochs broadcast by an iteration's outcome. -/
def stepBroadcasts : DetectorOutcome → List Epoch
  | .broadcast l => l
  | _ => []

/-- The checkpoint after an iteration: `_broadcast_epoch` overwrites
`self._last_processed_epoch` with each broadcast epoch in turn, so the final
checkpoint is the last broadcast epoch; every other outcome leaves it
unchanged (on `GenericExitOnSignal` the cleanup decorator re-saves the
unchanged checkpoint). -/
def stepCheckpoint (last : Epoch) : DetectorOutcome → Epoch
  | .broadcast l => l.getLastD last
  | _ => last

/-- Whether the outcome raises `GenericExitOnSignal`, which the
`rabbitmq_and_redis_cleanup` decorator turns into `sys.exit(0)`. -/
def isTerminalOutcome : DetectorOutcome → Bool
  | .terminateFallBehind => true
  | .terminateRegression => true
  | _ => false

/-! ## Routing in `ProcessorDistributor._distribute_callbacks`

Lines 295–340 of `pooler/processor_distributor.py`: a first, stand-alone
`if` forwards `SnapshotFinalized` deliveries to the payload commit queue;
a second, separate `if …: … elif …: … else: …` chain dispatches
`EpochReleased` to snapshotting, `SnapshotFinalized` to aggregation, and
logs an unknown routing key otherwise.  The model records, in order, the
handlers invoked for a given routing key. -/
inductive DistAction where
  | forwardToPayloadCommitQueue
  | distributeSnapshotting
  | distributeAggregate
  | logUnknownRoutingKey
deriving DecidableEq, Repr

def routingKeySnapshotFinalized (ns instanceId : String) : String :=
  "powerloom-event-detector:" ++ ns ++ ":" ++ instanceId ++ ".SnapshotFinalized"

def routingKeyEpochReleased (ns instanceId : String) : String :=
  "powerloom-event-detector:" ++ ns ++ ":" ++ instanceId ++ ".EpochReleased"

def distributeCallbacks (ns instanceId routingKey : String) : List DistAction :=
  (if routingKey = routingKeySnapshotFinalized ns instanceId then
    [.forwardToPayloadCommitQueue]
  else []) ++
  (if routingKey = routingKeyEpochReleased ns instanceId then
    [.distributeSnapshotting]
  else if routingKey = routingKeySnapshotFinalized ns instanceId then
    [.distributeAggregate]
  else [.logUnknownRoutingKey])

/-! ## `ProcessorDistributor._distribute_callbacks_snapshotting`

Lines 104–123: for each `project_config` in `projects_config`, for each
`project` in its `projects`, one `PowerloomSnapshotProcessMessage` is sent
with `contract = project.lower()` and `begin`/`end`/`epochId`/`broadcastId`
copied from the inbound `EpochBroadcast`.  The output pairs each message
with the `project_type` it is routed to, in loop order.  (The pydantic
message models live in `pooler/utils/models/message_models.py`, outside the
given sources; their fields are taken from their uses here.) -/
structure ProjectConfig where
  project_type : String
  projects : List String
deriving DecidableEq, Repr

structure EpochBroadcast where
  begin_ : Int
  end_ : Int
  epochId : Int
  broadcastId : String
deriving DecidableEq, Repr

structure PowerloomSnapshotProcessMessage where
  begin_ : Int
  end_ : Int
  epochId : Int
  contract : String
  broadcastId : String
deriving DecidableEq, Repr

def distributeCallbacksSnapshotting (projects_config : List ProjectConfig)
    (msg_obj : EpochBroadcast) : List (String × PowerloomSnapshotProcessMessage) :=
  projects_config.flatMap fun project_config =>
    project_config.projects.map fun project =>
      (project_config.project_type,
        { begin_ := msg_obj.begin_
          end_ := msg_obj.end_
          epochId := msg_obj.epochId
          contract := project.toLower
          broadcastId := msg_obj.broadcastId })

/-- The configured `(projectType, project address)` pairs in configuration
order; the claim-side enumeration the fan-out is compared against. -/
def configuredPairs (projects_config : List ProjectConfig) : List (String × String) :=
  projects_config.flatMap fun cfg => cfg.projects.map fun p => (cfg.project_type, p)

/-! ## Multi-project branch of `_distribute_callbacks_aggregate`

Lines 231–290.  The Redis sorted set
`powerloom:aggregator:{project_type}:events` is modelled as a list of
`(member, score)` pairs; members are the parsed
`PowerloomSnapshotFinalizedMessage`s (the source stores `json()`
serialisations, which are in bijection with the messages), kept in
insertion order.  `projectId` and `epochId` are the fields the handler
reads; remaining serialised fields are abstracted into `payloadRest` so
that distinct messages remain distinct members. -/
structure PowerloomSnapshotFinalizedMessage where
  epochId : Int
  projectId : String
  payloadRest : String
deriving DecidableEq, Repr

structure PowerloomCalculateAggregateMessage where
  messages : List PowerloomSnapshotFinalizedMessage
deriving DecidableEq, Repr

abbrev CorrelationZSet := List (PowerloomSnapshotFinalizedMessage × Int)

/-- Redis `ZADD key score member`: update the member's score if present,
otherwise insert it. -/
def zadd (z : CorrelationZSet) (m : PowerloomSnapshotFinalizedMessage)
    (score : Int) : CorrelationZSet :=
  if z.any (fun p => p.1 = m) then
    z.map fun p => if p.1 = m then (p.1, score) else p
  else z ++ [(m, score)]

/-- Redis `ZRANGEBYSCORE key lo hi`: the members whose score lies in
`[lo, hi]`. -/
def zrangebyscore (z : CorrelationZSet) (lo hi : Int) :
    List PowerloomSnapshotFinalizedMessage :=
  (z.filter fun p => decide (lo ≤ p.2 ∧ p.2 ≤ hi)).map Prod.fst

/-- Redis `ZREMRANGEBYSCORE key lo hi`: drop the members whose score lies
in `[lo, hi]`. -/
def zremrangebyscore (z : CorrelationZSet) (lo hi : Int) : CorrelationZSet :=
  z.filter fun p => !(decide (lo ≤ p.2 ∧ p.2 ≤ hi))

/-- Python `set(a) == set(b)` on lists of project ids. -/
def sameElems (a b : List String) : Bool :=
  a.all (fun x => b.contains x) && b.all (fun x => a.contains x)

/-- The `AggregateOn.multi_project` arm of the aggregator loop for one
configuration: returns the updated sorted set and the
`PowerloomCalculateAggregateMessage`s sent (the `timestamp` and fresh
`broadcastId` of the outbound message are not modelled). -/
def distributeAggregateMultiProject (projects_to_wait_for : List String)
    (z : CorrelationZSet) (process_unit : PowerloomSnapshotFinalizedMessage) :
    CorrelationZSet × List PowerloomCalculateAggregateMessage :=
  if !(projects_to_wait_for.contains process_unit.projectId) then
    (z, [])
  else
    let z1 := zadd z process_unit process_unit.epochId
    let events := zrangebyscore z1 process_unit.epochId process_unit.epochId
    if events.isEmpty then (z1, [])
    else
      let event_project_ids := events.map (·.projectId)
      if sameElems event_project_ids projects_to_wait_for then
        (zremrangebyscore z1 process_unit.epochId process_unit.epochId,
          [⟨events⟩])
      else (z1, [])

/-! ## `SCRIPT_INCR_EXPIRE` from `uniswap_functions.py`

```
local current
current = redis.call("incrby",KEYS[1],ARGV[2])
if tonumber(current) == tonumber(ARGV[2]) then
    redis.call("expire",KEYS[1],ARGV[1])
end
return current
```

One key's state is `none` when absent, `some (value, ttl)` otherwise, with
`ttl = none` meaning no expiry is set.  `INCRBY` on an absent key creates
it at `0` (with no expiry) before adding. -/
abbrev Bucket := Option (Int × Option Int)

def bucketValue : Bucket → Int
  | none => 0
  | some (v, _) => v

def bucketTTL : Bucket → Option Int
  | none => none
  | some (_, t) => t

/-- The script, atomically: returns the new key state and the reply
`current`.  `expiry = ARGV[1]`, `cost = ARGV[2]`. -/
def scriptIncrExpire (b : Bucket) (expiry cost : Int) : Bucket × Int :=
  let current := bucketValue b + cost
  if current = cost then (some (current, some expiry), current)
  else (some (current, bucketTTL b), current)

/-- Key states reachable from an absent key when every write to the key
goes through `SCRIPT_INCR_EXPIRE` (and an elapsed expiry deletes the
key). -/
inductive ReachableBucket : Bucket → Prop
  | init : ReachableBucket none
  | step (b : Bucket) (expiry cost : Int) :
      ReachableBucket b → ReachableBucket (scriptIncrExpire b expiry cost).1
  | lapse (b : Bucket) : ReachableBucket b → ReachableBucket none

/-- The key, when present, carries an expiry. -/
def bucketHasTTL : Bucket → Prop
  | none => True
  | some (_, t) => t.isSome = true

/-! ## Per-limit loop of `check_rpc_rate_limit`

Lines 204–251 of `uniswap_functions.py`.  `can_request` starts `False`;
for each parsed limit, `custom_limiter.hit` either returns a boolean or
raises.  A `False` hit breaks with `can_request = False`, after which
`RPCException` is raised; a Redis
`ConnectionError`/`TimeoutError`/`ResponseError` is logged
(`'Bypassing rate limit check … because of Redis exception'`) and then
re-`raise`d; any other exception is logged and re-`raise`d; a `True` hit
sets `can_request = True` and continues.  The input list gives each
limit's `hit` outcome in order. -/
inductive HitOutcome where
  | ok (allowed : Bool)
  | connectionError
  | timeoutError
  | responseError
  | otherError
deriving DecidableEq, Repr

inductive RateLimitResult where
  /-- The function returns `can_request = True`: the call is permitted. -/
  | allowed
  /-- `RPCException` raised because `can_request` ended up `False`. -/
  | rpcExceptionRateLimited
  /-- The Redis exception is re-raised and propagates to the caller. -/
  | redisExceptionPropagated
  /-- A non-Redis exception is re-raised and propagates to the caller. -/
  | otherExceptionPropagated
deriving DecidableEq, Repr

def rateLimitLoopGo : List HitOutcome → Bool → RateLimitResult
  | [], can_request => if can_request then .allowed else .rpcExceptionRateLimited
  | h :: rest, _ =>
      match h with
      | .ok false => .rpcExceptionRateLimited
      | .ok true => rateLimitLoopGo rest true
      | .connectionError => .redisExceptionPropagated
      | .timeoutError => .redisExceptionPropagated
      | .responseError => .redisExceptionPropagated
      | .otherError => .otherExceptionPropagated

def check_rpc_rate_limit (hits : List HitOutcome) : RateLimitResult :=
  rateLimitLoopGo hits false

/-! ### Structure lemmas about `chunks` via `covers` -/

theorem chunksGo_eq_nil_of_not_lt (fuel : Nat) (i stop_idx n : Int)
    (h : ¬ i < stop_idx + 1) : chunksGo fuel i stop_idx n = [] := by
  cases fuel <;> simp [chunksGo, h]

theorem chunksGo_covers (fuel : Nat) :
    ∀ (s t n : Int), 1 ≤ n → s ≤ t → (t + 1 - s).toNat ≤ fuel →
      covers (chunksGo fuel s t n) s t := by
  induction fuel with
  | zero => intro s t n _ hst hf; omega
  | succ fuel ih =>
      intro s t n hn hst hf
      rw [chunksGo, if_pos (by omega)]
      by_cases hrest : s + n ≤ t
      · have he : s + n - 1 ≤ t := by omega
        rw [if_pos he]
        refine ⟨rfl, by omega, he, ?_⟩
        have : s + n - 1 + 1 = s + n := by ring
        rw [this]
        exact ih (s + n) t n hn hrest (by omega)
      · have hnil : chunksGo fuel (s + n) t n = [] :=
          chunksGo_eq_nil_of_not_lt fuel (s + n) t n (by omega)
        by_cases he : s + n - 1 ≤ t
        · rw [if_pos he, hnil]
          refine ⟨rfl, by omega, he, ?_⟩
          show s + n - 1 + 1 = t + 1
          omega
        · rw [if_neg he, hnil]
          exact ⟨rfl, hst, le_refl t, rfl⟩

theorem chunks_covers (s t n : Int) (hn : 1 ≤ n) (hst : s ≤ t) :
    covers (chunks s t n) s t := by
  rw [chunks, if_pos hn]
  exact chunksGo_covers _ s t n hn hst (le_refl _)

theorem covers_bounds {l : List (Int × Int)} :
    ∀ {lo hi : Int}, covers l lo hi →
      ∀ c ∈ l, lo ≤ c.1 ∧ c.1 ≤ c.2 ∧ c.2 ≤ hi := by
  induction l with
  | nil => intro lo hi _ c hc; cases hc
  | cons hd tl ih =>
      intro lo hi hcov c hc
      obtain ⟨b, e⟩ := hd
      obtain ⟨hb, hle, hhi, hrest⟩ := hcov
      rcases List.mem_cons.mp hc with rfl | hc
      · exact ⟨le_of_eq hb.symm, by simpa [hb] using hle, hhi⟩
      · have := ih hrest c hc
        exact ⟨by omega, this.2.1, this.2.2⟩

theorem covers_pairwise {l : List (Int × Int)} :
    ∀ {lo hi : Int}, covers l lo hi →
      l.Pairwise (fun c d => c.2 < d.1) := by
  induction l with
  | nil => intro lo hi _; exact List.Pairwise.nil
  | cons hd tl ih =>
      intro lo hi hcov
      obtain ⟨b, e⟩ := hd
      obtain ⟨hb, hle, hhi, hrest⟩ := hcov
      refine List.Pairwise.cons ?_ (ih hrest)
      intro d hd
      have := covers_bounds hrest d hd
      omega

theorem covers_mem_iff {l : List (Int × Int)} :
    ∀ {lo hi : Int}, covers l lo hi →
      ∀ x : Int, (lo ≤ x ∧ x ≤ hi) ↔ ∃ c ∈ l, c.1 ≤ x ∧ x ≤ c.2 := by
  induction l with
  | nil =>
      intro lo hi h x
      have h0 : lo = hi + 1 := h
      simp only [List.not_mem_nil, false_and, exists_false, iff_false]
      omega
  | cons hd tl ih =>
      intro lo hi hcov x
      obtain ⟨b, e⟩ := hd
      obtain ⟨hb, hle, hhi, hrest⟩ := hcov
      subst hb
      constructor
      · rintro ⟨h1, h2⟩
        by_cases hx : x ≤ e
        · exact ⟨(b, e), List.mem_cons_self _ _, h1, hx⟩
        · obtain ⟨c, hc, hcx⟩ := ((ih hrest x).mp ⟨by omega, h2⟩)
          exact ⟨c, List.mem_cons_of_mem _ hc, hcx⟩
      · rintro ⟨c, hc, hc1, hc2⟩
        rcases List.mem_cons.mp hc with rfl | hc
        · exact ⟨hc1, le_trans hc2 hhi⟩
        · have hb := covers_bounds hrest c hc
          exact ⟨by omega, by omega⟩

theorem covers_getLast? {l : List (Int × Int)} :
    ∀ {lo hi : Int}, covers l lo hi → lo ≤ hi →
      ∃ b, l.getLast? = some (b, hi) := by
  induction l with
  | nil =>
      intro lo hi h hlh
      have h0 : lo = hi + 1 := h
      exact absurd h0 (by omega)
  | cons hd tl ih =>
      intro lo hi hcov hlh
      obtain ⟨b, e⟩ := hd
      obtain ⟨hb, hle, hhi, hrest⟩ := hcov
      cases tl with
      | nil =>
          refine ⟨b, ?_⟩
          have h0 : e + 1 = hi + 1 := hrest
          have : e = hi := by omega
          simp [this]
      | cons hd2 tl2 =>
          obtain ⟨b2, e2⟩ := hd2
          have hcopy := hrest
          obtain ⟨hb2, hle2, hhi2, -⟩ := hcopy
          obtain ⟨b3, h3⟩ := ih hrest (by omega)
          exact ⟨b3, by simpa using h3⟩

/-! ### Helper lemmas about the sorted-set model -/

theorem mem_zadd_self (z : CorrelationZSet)
    (m : PowerloomSnapshotFinalizedMessage) (score : Int) :
    (m, score) ∈ zadd z m score := by
  rw [zadd]
  by_cases h : z.any (fun p => p.1 = m)
  · rw [if_pos h]
    obtain ⟨p, hp, hpm⟩ := List.any_eq_true.mp h
    have hpe : p.1 = m := by simpa using hpm
    refine List.mem_map.mpr ⟨p, hp, ?_⟩
    simp [hpe]
  · rw [if_neg h]
    simp

theorem mem_zrangebyscore_of_mem {z : CorrelationZSet}
    {m : PowerloomSnapshotFinalizedMessage} {s : Int}
    (h : (m, s) ∈ z) : m ∈ zrangebyscore z s s := by
  rw [zrangebyscore]
  exact List.mem_map.mpr ⟨(m, s), List.mem_filter.mpr ⟨h, by simp⟩, rfl⟩

theorem zrangebyscore_zremrangebyscore (z : CorrelationZSet) (lo hi : Int) :
    zrangebyscore (zremrangebyscore z lo hi) lo hi = [] := by
  rw [zrangebyscore, zremrangebyscore, List.filter_filter]
  have : ∀ p : PowerloomSnapshotFinalizedMessage × Int,
      (decide (lo ≤ p.2 ∧ p.2 ≤ hi) && !decide (lo ≤ p.2 ∧ p.2 ≤ hi)) = false := by
    intro p; cases decide (lo ≤ p.2 ∧ p.2 ≤ hi) <;> rfl
  simp only [this, List.filter_false, List.map_nil]

/-! ## Claim theorems -/

/-- **C6.** For every call to `chunks` with `start_idx ≤ stop_idx` and
`n ≥ 1`, the yielded `(begin, end)` ranges are pairwise disjoint and
strictly ascending, together cover every integer of
`[start_idx, stop_idx]` exactly once, and the last yielded chunk's end
equals `stop_idx`. -/
theorem chunks_partition (start_idx stop_idx n : Int)
    (h1 : start_idx ≤ stop_idx) (h2 : 1 ≤ n) :
    (chunks start_idx stop_idx n).Pairwise (fun c d => c.2 < d.1) ∧
    (∀ x : Int, (start_idx ≤ x ∧ x ≤ stop_idx) ↔
      ∃ c ∈ chunks start_idx stop_idx n, c.1 ≤ x ∧ x ≤ c.2) ∧
    (∃ b, (chunks start_idx stop_idx n).getLast? = some (b, stop_idx)) := by
  have hcov := chunks_covers start_idx stop_idx n h2 h1
  exact ⟨covers_pairwise hcov, covers_mem_iff hcov, covers_getLast? hcov h1⟩

theorem chunks_partition_witness :
    (100 : Int) ≤ 200 ∧ (1 : Int) ≤ 30 ∧
    ((chunks 100 200 30).Pairwise (fun c d => c.2 < d.1) ∧
     (∀ x : Int, ((100 : Int) ≤ x ∧ x ≤ 200) ↔
       ∃ c ∈ chunks 100 200 30, c.1 ≤ x ∧ x ≤ c.2) ∧
     (∃ b, (chunks 100 200 30).getLast? = some (b, 200))) :=
  ⟨by decide, by decide, chunks_partition 100 200 30 (by decide) (by decide)⟩

/-- **C2 (counterexample).** With checkpoint `{end: 100}` and network epoch
`{begin: 101, end: 200}` inside the fall-behind threshold (1000), the
detector broadcasts the two chunks `{100,199}` and `{200,200}` — the first
chunk starts at the checkpoint's own `end`, because the source calls
`chunks(last['end'], current['end'], …)` — and not the single chunk
`{101,200}` stated by the claim. -/
theorem detector_chunk_counterexample :
    detectorStep ⟨1, 100⟩ ⟨101, 200⟩ 1000 =
      .broadcast [⟨100, 199⟩, ⟨200, 200⟩] ∧
    detectorStep ⟨1, 100⟩ ⟨101, 200⟩ 1000 ≠ .broadcast [⟨101, 200⟩] := by
  decide

/-- **C2 (amended).** When a checkpoint exists, the network's end is
strictly ahead, the gap is within the fall-behind threshold and the network
epoch is nondegenerate, the detector broadcasts exactly the chunks of
`chunks(checkpoint.end, network.end, network.end − network.begin + 1)`:
they partition the closed range `[checkpoint.end, network.end]` — the first
chunk re-includes the checkpoint's `end` — into ascending spans of one
epoch's width with the last truncated at `network.end`, and the checkpoint
persisted after the loop ends at `network.end`. -/
theorem detector_broadcast_partition (last current : Epoch) (thr : Int)
    (h1 : last.end_ < current.end_)
    (h2 : current.end_ - last.end_ ≤ thr)
    (h3 : current.begin_ ≤ current.end_) :
    detectorStep last current thr =
      .broadcast ((chunks last.end_ current.end_
        (current.end_ - current.begin_ + 1)).map fun c => ⟨c.1, c.2⟩) ∧
    covers (chunks last.end_ current.end_ (current.end_ - current.begin_ + 1))
      last.end_ current.end_ ∧
    (stepCheckpoint last (detectorStep last current thr)).end_ = current.end_ := by
  have hstep : detectorStep last current thr =
      .broadcast ((chunks last.end_ current.end_
        (current.end_ - current.begin_ + 1)).map fun c => ⟨c.1, c.2⟩) := by
    rw [detectorStep, if_neg (by omega), if_neg (by omega), if_neg (by omega)]
  have hcov := chunks_covers last.end_ current.end_
    (current.end_ - current.begin_ + 1) (by omega) (le_of_lt h1)
  obtain ⟨b, hlast⟩ := covers_getLast? hcov (le_of_lt h1)
  refine ⟨hstep, hcov, ?_⟩
  rw [hstep, stepCheckpoint, List.getLastD_eq_getLast?, List.getLast?_map, hlast]
  rfl

theorem detector_broadcast_partition_witness :
    (100 : Int) < 200 ∧ (200 : Int) - 100 ≤ 1000 ∧ (101 : Int) ≤ 200 ∧
    (detectorStep ⟨1, 100⟩ ⟨101, 200⟩ 1000 =
      .broadcast ((chunks 100 200 100).map fun c => ⟨c.1, c.2⟩) ∧
     covers (chunks 100 200 100) 100 200 ∧
     (stepCheckpoint ⟨1, 100⟩ (detectorStep ⟨1, 100⟩ ⟨101, 200⟩ 1000)).end_ = 200) :=
  ⟨by decide, by decide, by decide,
    detector_broadcast_partition ⟨1, 100⟩ ⟨101, 200⟩ 1000
      (by decide) (by decide) (by decide)⟩

/-- **C8.** When the checkpoint's end equals the network's end, the polling
iteration performs zero broadcasts and leaves the checkpoint unchanged: it
only sleeps and retries. -/
theorem detector_same_end_noop (last current : Epoch) (thr : Int)
    (h : last.end_ = current.end_) :
    detectorStep last current thr = .sleepRetry ∧
    stepBroadcasts (detectorStep last current thr) = [] ∧
    stepCheckpoint last (detectorStep last current thr) = last := by
  rw [detectorStep, if_pos h]
  exact ⟨rfl, rfl, rfl⟩

theorem detector_same_end_noop_witness :
    (Epoch.mk 1 100).end_ = (Epoch.mk 50 100).end_ ∧
    (detectorStep ⟨1, 100⟩ ⟨50, 100⟩ 1000 = .sleepRetry ∧
     stepBroadcasts (detectorStep ⟨1, 100⟩ ⟨50, 100⟩ 1000) = [] ∧
     stepCheckpoint ⟨1, 100⟩ (detectorStep ⟨1, 100⟩ ⟨50, 100⟩ 1000) = ⟨1, 100⟩) :=
  ⟨by decide, detector_same_end_noop ⟨1, 100⟩ ⟨50, 100⟩ 1000 (by decide)⟩

/-- **C7.** Whenever the network epoch's end is strictly less than the
checkpoint's end (regression), the iteration raises `GenericExitOnSignal` —
terminating the process — without broadcasting any epoch and without
updating the checkpoint. -/
theorem detector_regression_terminates (last current : Epoch) (thr : Int)
    (h : current.end_ < last.end_) :
    isTerminalOutcome (detectorStep last current thr) = true ∧
    stepBroadcasts (detectorStep last current thr) = [] ∧
    stepCheckpoint last (detectorStep last current thr) = last := by
  rw [detectorStep, if_neg (by omega)]
  by_cases hfb : current.end_ - last.end_ > thr
  · rw [if_pos hfb]; exact ⟨rfl, rfl, rfl⟩
  · rw [if_neg hfb, if_pos (by omega)]; exact ⟨rfl, rfl, rfl⟩

theorem detector_regression_terminates_witness :
    (Epoch.mk 50 100).end_ < (Epoch.mk 1 150).end_ ∧
    (isTerminalOutcome (detectorStep ⟨1, 150⟩ ⟨50, 100⟩ 1000) = true ∧
     stepBroadcasts (detectorStep ⟨1, 150⟩ ⟨50, 100⟩ 1000) = [] ∧
     stepCheckpoint ⟨1, 150⟩ (detectorStep ⟨1, 150⟩ ⟨50, 100⟩ 1000) = ⟨1, 150⟩) :=
  ⟨by decide, detector_regression_terminates ⟨1, 150⟩ ⟨50, 100⟩ 1000 (by decide)⟩

/-- **C4 (code evaluation).** With checkpoint `{end: 100}`, network epoch
`{begin: 1101, end: 1200}` and fall-behind threshold 1000 (gap 1100 above
the threshold), the detector raises `GenericExitOnSignal` — terminating the
process on the first detection — instead of warning on every cycle and
continuing as both the spec and the source's own `TODO` comment describe. -/
theorem detector_fall_behind_terminates :
    detectorStep ⟨1, 100⟩ ⟨1101, 1200⟩ 1000 = .terminateFallBehind ∧
    isTerminalOutcome (detectorStep ⟨1, 100⟩ ⟨1101, 1200⟩ 1000) = true := by
  decide

theorem routingKeys_ne (ns instanceId : String) :
    routingKeySnapshotFinalized ns instanceId ≠ routingKeyEpochReleased ns instanceId := by
  intro h
  have hlen := congrArg String.length h
  rw [routingKeySnapshotFinalized, routingKeyEpochReleased] at hlen
  simp only [String.length_append] at hlen
  have h1 : (".SnapshotFinalized" : String).length = 18 := by decide
  have h2 : (".EpochReleased" : String).length = 14 := by decide
  omega

/-- **C5.** For a delivery on the `SnapshotFinalized` topic, the
commit-payload forwarding guard fires first, and the aggregation guard also
fires on the same delivery afterwards: the two guards are independent `if`
statements, not mutually exclusive branches. -/
theorem distribute_callbacks_snapshot_finalized (ns instanceId : String) :
    distributeCallbacks ns instanceId (routingKeySnapshotFinalized ns instanceId) =
      [.forwardToPayloadCommitQueue, .distributeAggregate] := by
  rw [distributeCallbacks, if_pos rfl, if_neg (routingKeys_ne ns instanceId), if_pos rfl]
  rfl

/-- **C10.** The snapshotting fan-out emits exactly one
`PowerloomSnapshotProcessMessage` per configured
`(projectType, project address)` pair, in configuration order; each
message's `contract` is the configured address lower-cased and its
`begin`, `end`, `epochId` and `broadcastId` are those of the inbound
broadcast, unchanged. -/
theorem distribute_snapshotting_fanout (projects_config : List ProjectConfig)
    (msg_obj : EpochBroadcast) :
    distributeCallbacksSnapshotting projects_config msg_obj =
      (configuredPairs projects_config).map fun pr =>
        (pr.1, { begin_ := msg_obj.begin_, end_ := msg_obj.end_,
                 epochId := msg_obj.epochId, contract := pr.2.toLower,
                 broadcastId := msg_obj.broadcastId }) := by
  induction projects_config with
  | nil => rfl
  | cons cfg rest ih =>
      rw [distributeCallbacksSnapshotting, configuredPairs, List.flatMap_cons,
        List.flatMap_cons, List.map_append, List.map_map]
      rw [distributeCallbacksSnapshotting, configuredPairs] at ih
      rw [ih]
      rfl

/-- **C1.** Multi-project aggregation: when a finalized message whose
`projectId` is in the required set arrives, it is inserted at score
`epochId` and read back with all entries at that exact score; exactly when
the distinct `projectId`s present equal the required set, one
`PowerloomCalculateAggregateMessage` bundling all retrieved messages is
emitted and the entries at that score are deleted (the correlation set at
that epoch is empty afterwards); otherwise no aggregate is emitted and the
stored entries remain. -/
theorem distribute_aggregate_correlation (projects_to_wait_for : List String)
    (z : CorrelationZSet) (m : PowerloomSnapshotFinalizedMessage)
    (hmem : projects_to_wait_for.contains m.projectId = true) :
    m ∈ zrangebyscore (zadd z m m.epochId) m.epochId m.epochId ∧
    (sameElems ((zrangebyscore (zadd z m m.epochId) m.epochId m.epochId).map
        (·.projectId)) projects_to_wait_for = true →
      (distributeAggregateMultiProject projects_to_wait_for z m).2 =
        [⟨zrangebyscore (zadd z m m.epochId) m.epochId m.epochId⟩] ∧
      zrangebyscore (distributeAggregateMultiProject projects_to_wait_for z m).1
        m.epochId m.epochId = []) ∧
    (sameElems ((zrangebyscore (zadd z m m.epochId) m.epochId m.epochId).map
        (·.projectId)) projects_to_wait_for = false →
      (distributeAggregateMultiProject projects_to_wait_for z m).2 = [] ∧
      (distributeAggregateMultiProject projects_to_wait_for z m).1 =
        zadd z m m.epochId) := by
  have hmev : m ∈ zrangebyscore (zadd z m m.epochId) m.epochId m.epochId :=
    mem_zrangebyscore_of_mem (mem_zadd_self z m m.epochId)
  have hne : (zrangebyscore (zadd z m m.epochId) m.epochId m.epochId).isEmpty = false := by
    rcases he : zrangebyscore (zadd z m m.epochId) m.epochId m.epochId with _ | ⟨a, l⟩
    · rw [he] at hmev; cases hmev
    · rfl
  have hmem' : m.projectId ∈ projects_to_wait_for := by simpa using hmem
  refine ⟨hmev, ?_, ?_⟩
  · intro hsame
    rw [distributeAggregateMultiProject, if_neg (by simp [hmem'])]
    simp [hne, hsame, zrangebyscore_zremrangebyscore]
  · intro hsame
    rw [distributeAggregateMultiProject, if_neg (by simp [hmem'])]
    simp [hne, hsame]

theorem distribute_aggregate_correlation_witness :
    (["A", "B"].contains (PowerloomSnapshotFinalizedMessage.mk 5 "B" "y").projectId
      = true) ∧
    ((PowerloomSnapshotFinalizedMessage.mk 5 "B" "y") ∈
        zrangebyscore (zadd [(⟨5, "A", "x"⟩, 5)] ⟨5, "B", "y"⟩ 5) 5 5 ∧
     (sameElems ((zrangebyscore (zadd [(⟨5, "A", "x"⟩, 5)] ⟨5, "B", "y"⟩ 5) 5 5).map
         (·.projectId)) ["A", "B"] = true →
       (distributeAggregateMultiProject ["A", "B"] [(⟨5, "A", "x"⟩, 5)] ⟨5, "B", "y"⟩).2 =
         [⟨zrangebyscore (zadd [(⟨5, "A", "x"⟩, 5)] ⟨5, "B", "y"⟩ 5) 5 5⟩] ∧
       zrangebyscore
         (distributeAggregateMultiProject ["A", "B"] [(⟨5, "A", "x"⟩, 5)] ⟨5, "B", "y"⟩).1
         5 5 = []) ∧
     (sameElems ((zrangebyscore (zadd [(⟨5, "A", "x"⟩, 5)] ⟨5, "B", "y"⟩ 5) 5 5).map
         (·.projectId)) ["A", "B"] = false →
       (distributeAggregateMultiProject ["A", "B"] [(⟨5, "A", "x"⟩, 5)] ⟨5, "B", "y"⟩).2 = [] ∧
       (distributeAggregateMultiProject ["A", "B"] [(⟨5, "A", "x"⟩, 5)] ⟨5, "B", "y"⟩).1 =
         zadd [(⟨5, "A", "x"⟩, 5)] ⟨5, "B", "y"⟩ 5)) :=
  ⟨by decide,
    distribute_aggregate_correlation ["A", "B"] [(⟨5, "A", "x"⟩, 5)] ⟨5, "B", "y"⟩
      (by decide)⟩

theorem bucketHasTTL_scriptIncrExpire (b : Bucket) (expiry cost : Int)
    (hb : bucketHasTTL b) :
    bucketHasTTL (scriptIncrExpire b expiry cost).1 := by
  rcases b with _ | ⟨v, t⟩
  · rw [scriptIncrExpire, if_pos (by simp [bucketValue])]
    rfl
  · rw [scriptIncrExpire]
    by_cases h : bucketValue (some (v, t)) + cost = cost
    · rw [if_pos h]; rfl
    · rw [if_neg h]; exact hb

theorem reachable_bucketHasTTL (b : Bucket) (hb : ReachableBucket b) :
    bucketHasTTL b := by
  induction hb with
  | init => trivial
  | step b expiry cost _ ih => exact bucketHasTTL_scriptIncrExpire b expiry cost ih
  | lapse b _ => trivial

/-- **C9.** The increment-with-expiry script always increments the counter
by the cost; it sets the key's expiry to the window length exactly when the
post-increment value equals the cost (the increment that creates the
bucket); hence on every reachable store state the bucket counter never
exists without an expiry — and neither does the state the script leaves
behind. -/
theorem script_incr_expire_invariant (b : Bucket) (expiry cost : Int)
    (hb : ReachableBucket b) :
    (scriptIncrExpire b expiry cost).2 = bucketValue b + cost ∧
    bucketTTL (scriptIncrExpire b expiry cost).1 =
      (if bucketValue b + cost = cost then some expiry else bucketTTL b) ∧
    bucketHasTTL b ∧
    bucketHasTTL (scriptIncrExpire b expiry cost).1 := by
  refine ⟨?_, ?_, reachable_bucketHasTTL b hb,
    bucketHasTTL_scriptIncrExpire b expiry cost (reachable_bucketHasTTL b hb)⟩
  · rw [scriptIncrExpire]
    by_cases h : bucketValue b + cost = cost
    · rw [if_pos h]
    · rw [if_neg h]
  · rw [scriptIncrExpire]
    by_cases h : bucketValue b + cost = cost
    · rw [if_pos h, if_pos h]; rfl
    · rw [if_neg h, if_neg h]; rfl

theorem script_incr_expire_invariant_witness :
    ReachableBucket none ∧
    ((scriptIncrExpire none 60 5).2 = bucketValue none + 5 ∧
     bucketTTL (scriptIncrExpire none 60 5).1 =
       (if bucketValue none + 5 = 5 then some 60 else bucketTTL none) ∧
     bucketHasTTL (none : Bucket) ∧
     bucketHasTTL (scriptIncrExpire none 60 5).1) :=
  ⟨ReachableBucket.init, script_incr_expire_invariant none 60 5 ReachableBucket.init⟩

/-- **C3 (code evaluation).** When the backing store is unreachable or
times out during a limit check, `check_rpc_rate_limit` is *not* fail-open:
after logging `'Bypassing rate limit check … because of Redis exception'`
the handler re-raises, so the Redis exception propagates to the caller and
the call is not permitted — contradicting both the claim and the log
message's own wording. -/
theorem rate_limit_store_error_propagates :
    check_rpc_rate_limit [.connectionError] = .redisExceptionPropagated ∧
    check_rpc_rate_limit [.timeoutError] = .redisExceptionPropagated ∧
    check_rpc_rate_limit [.ok true, .connectionError] = .redisExceptionPropagated ∧
    check_rpc_rate_limit [.connectionError] ≠ .allowed := by
  decide

end Pooler
